import Mathlib

/- Verification of the openclaw repository: the session-state engine
(modelled from the specification, since the engine script itself is not
part of the source tree), the .env update utility, and the Remotion
render server. -/

namespace OpenClaw

/-! ## Session state engine: data model -/

/-- Modelled from the spec: per-participant activity status
(`active|idle|afk`, spec section 3 "Participant"); the engine script
rpg_state.py is not in the source tree. -/
inductive ActivityStatus where
  | active
  | idle
  | afk
deriving DecidableEq

/-- Modelled from the spec: the game mode (`rp|combat|cutscene`, spec
section 3 "Session"); the engine script rpg_state.py is not in the source
tree. -/
inductive Mode where
  | rp
  | combat
  | cutscene
deriving DecidableEq

/-- Modelled from the spec: one row per controllable character (spec
section 3 "Participant"). -/
structure Participant where
  characterName : String
  controller : String
  activityStatus : ActivityStatus
  skipCount : Nat
  lastActionAt : Option Nat
deriving DecidableEq

/-- Modelled from the spec: a character's visual placement (spec section 3
"Token"). -/
structure Token where
  characterName : String
  map : String
  position : String
  color : String
  hidden : Bool
deriving DecidableEq

/-- Modelled from the spec: append-only action record (spec section 3
"ActionLogEntry"). -/
structure ActionLogEntry where
  characterName : String
  timestamp : Nat
  summary : String
deriving DecidableEq

/-- Modelled from the spec: the singleton session record (spec sections 3
and 6: `session`, `participants[]`, `initiative[]` + `currentIndex` +
`deadline`, `tokens[]`, `actionLog[]`). -/
structure GameState where
  mode : Mode
  activeMap : Option String
  sceneName : Option String
  participants : List Participant
  initiative : List String
  currentIndex : Nat
  deadline : Option Nat
  turnTimeout : Nat
  tokens : List Token
  actionLog : List ActionLogEntry
deriving DecidableEq

/-- Modelled from the spec: machine-readable failure kinds (spec section
7). -/
inductive RpgError where
  | notYourTurn (currentCharacter : String)
  | narratorOnly
  | validationError (message : String)
  | unknownPosition (position : String) (valid : List String)
  | noConnection
deriving DecidableEq

/-- Modelled from the spec: the automated stand-in controller id (spec
section 4.3: controller is set to "bot"). -/
def botController : String := "bot"

/-- Modelled from the spec: the skip-count state machine image (spec
section 4.3: 0-1 active, 2 idle, 3 or more afk). -/
def statusOfSkip (n : Nat) : ActivityStatus :=
  if n ≤ 1 then .active else if n = 2 then .idle else .afk

/-- Modelled from the spec: the current controller of a character, if the
character exists. -/
def controllerOf (s : GameState) (character : String) : Option String :=
  (s.participants.find? (fun p => p.characterName == character)).map Participant.controller

/-! ## Session state engine: operations -/

/-- Modelled from the spec: `join(viewer, character)` unconditionally
reclaims control and resets skipCount to 0 and status to active (spec
section 4.3). -/
def join (viewer character : String) (s : GameState) : GameState :=
  if s.participants.any (fun p => p.characterName == character) then
    { s with participants := s.participants.map (fun p =>
        if p.characterName = character then
          { p with controller := viewer, skipCount := 0, activityStatus := .active }
        else p) }
  else
    { s with participants := s.participants ++
        [{ characterName := character, controller := viewer,
           activityStatus := .active, skipCount := 0, lastActionAt := none }] }

/-- Modelled from the spec: on acceptance of a log-action, append an
ActionLogEntry and reset that participant's skipCount to 0 and status to
active (spec section 4.2). -/
def recordAction (character text : String) (now : Nat) (s : GameState) : GameState :=
  { s with
    participants := s.participants.map (fun p =>
      if p.characterName = character then
        { p with skipCount := 0, activityStatus := .active, lastActionAt := some now }
      else p),
    actionLog := s.actionLog ++
      [{ characterName := character, timestamp := now, summary := text }] }

/-- Modelled from the spec: the narrator's own channel id (spec section
4.2: cutscene actions are rejected for every caller except the narrator's
own channel). -/
def narratorChannel : String := "narrator"

/-- Modelled from the spec: the turn validation contract of
`log-action(viewerId, characterName, text)` (spec section 4.2). -/
def logAction (viewer character text : String) (now : Nat) (s : GameState) :
    Except RpgError GameState :=
  match s.mode with
  | .cutscene =>
      if viewer = narratorChannel then .ok (recordAction character text now s)
      else .error .narratorOnly
  | .combat =>
      match s.initiative.get? s.currentIndex with
      | none => .error (.validationError "initiative pointer out of range")
      | some current =>
          if character = current ∧ controllerOf s character = some viewer then
            .ok (recordAction character text now s)
          else .error (.notYourTurn current)
  | .rp =>
      if controllerOf s character = some viewer then
        .ok (recordAction character text now s)
      else .error (.validationError "unknown character")

/-- Modelled from the spec: failure never partially mutates state (spec
section 6); a rejected command leaves the session record unchanged. -/
def runLogAction (viewer character text : String) (now : Nat) (s : GameState) : GameState :=
  match logAction viewer character text now s with
  | .ok s2 => s2
  | .error _ => s

/-- Modelled from the spec: increment the skipped character's skipCount,
recompute the activity status, and reassign the controller to the bot when
the count reaches 3 (spec section 4.3). -/
def bumpSkip (character : String) (s : GameState) : GameState :=
  { s with participants := s.participants.map (fun p =>
      if p.characterName = character then
        { p with skipCount := p.skipCount + 1,
                 activityStatus := statusOfSkip (p.skipCount + 1),
                 controller := if 3 ≤ p.skipCount + 1 then botController else p.controller }
      else p) }

/-- Modelled from the spec: advance the pointer modulo sequence length and
set the new deadline (spec section 4.2, next-turn). -/
def advanceTurn (now : Nat) (s : GameState) : GameState :=
  { s with currentIndex := (s.currentIndex + 1) % s.initiative.length,
           deadline := some (now + s.turnTimeout) }

/-- Result of an auto-advance call: before expiry it only reports the
remaining seconds. -/
inductive AdvanceResult where
  | notExpired (remainingSeconds : Nat)
  | advanced (skipped : String)
  | notInCombat
deriving DecidableEq

/-- Modelled from the spec: `auto-advance` compares now against the current
deadline; if not yet expired it is a no-op reporting remaining seconds,
else it increments the skipped character's skipCount and advances like
next-turn (spec section 4.2). -/
def autoAdvance (now : Nat) (s : GameState) : AdvanceResult × GameState :=
  match s.mode, s.initiative.get? s.currentIndex, s.deadline with
  | .combat, some current, some d =>
      if now < d then (.notExpired (d - now), s)
      else (.advanced current, advanceTurn now (bumpSkip current s))
  | _, _, _ => (.notInCombat, s)

/-- Modelled from the spec: manual next-turn advances the pointer and sets
the new deadline; it is GM-initiated and not skip-incrementing (spec
sections 4.2 and 9). -/
def nextTurn (now : Nat) (s : GameState) : GameState :=
  if s.mode = .combat ∧ s.initiative ≠ [] then advanceTurn now s else s

/-- Modelled from the spec: `initiative(characters, timeoutSeconds)` builds
the sequence in the exact order given, sets the pointer to 0 and the
deadline to now + timeoutSeconds, entering combat (spec section 4.2). -/
def startInitiative (characters : List String) (timeoutSeconds now : Nat) (s : GameState) :
    GameState :=
  { s with mode := .combat, initiative := characters, currentIndex := 0,
           deadline := some (now + timeoutSeconds), turnTimeout := timeoutSeconds }

/-- Modelled from the spec: `end-combat` clears the sequence and pointer
and returns to rp mode (spec section 4.2). -/
def endCombat (s : GameState) : GameState :=
  { s with mode := .rp, initiative := [], currentIndex := 0, deadline := none }

/-- Modelled from the spec: explicit `set-mode` transition; entering
cutscene does not clear an in-progress initiative sequence (spec section
4.2). -/
def setMode (m : Mode) (s : GameState) : GameState :=
  { s with mode := m }

/-- Modelled from the spec: `switch-scene(map, name)` changes
Session.activeMap (and the scene name) only; it does not touch any Token
(spec section 4.4). -/
def switchScene (map name : String) (s : GameState) : GameState :=
  { s with activeMap := some map, sceneName := some name }

/-! ## Terrain model and position tracking -/

/-- Modelled from the spec: one entry of the connections table, mapping an
exit position of this map to an entry position on another map (spec
section 3 "TerrainMap"). -/
structure Connection where
  exitPosition : String
  toMap : String
  entryPosition : String
deriving DecidableEq

/-- Modelled from the spec: externally-authored per-map terrain data (spec
section 3 "TerrainMap"). -/
structure TerrainMap where
  mapId : String
  positions : List String
  defaultEntry : Option String
  connections : List Connection
deriving DecidableEq

/-- Static terrain data: a list of loaded maps. -/
abbrev Terrain := List TerrainMap

/-- Look up a map's terrain data by identifier. -/
def findMap (terrain : Terrain) (mapId : String) : Option TerrainMap :=
  terrain.find? (fun t => t.mapId == mapId)

/-- Modelled from the spec: replace the character's Token record wholesale
(spec section 4.4, move-token). -/
def setToken (tok : Token) (s : GameState) : GameState :=
  if s.tokens.any (fun t => t.characterName == tok.characterName) then
    { s with tokens := s.tokens.map (fun t =>
        if t.characterName = tok.characterName then tok else t) }
  else
    { s with tokens := s.tokens ++ [tok] }

/-- Modelled from the spec: `move-token` validates that the map has loaded
terrain and the position exists in that map's named-position set; on
success it replaces the token wholesale, else fails with UnknownPosition
(spec section 4.4). -/
def moveToken (terrain : Terrain) (character mapId position color : String) (hidden : Bool)
    (s : GameState) : Except RpgError GameState :=
  match findMap terrain mapId with
  | none => .error (.validationError "unknown map")
  | some tm =>
      if position ∈ tm.positions then
        .ok (setToken { characterName := character, map := mapId, position := position,
                        color := color, hidden := hidden } s)
      else .error (.unknownPosition position tm.positions)

/-- Modelled from the spec: resolve the landing position of a cross-map
transfer: look for a connection entry whose source is the character's
current map/position and whose target map matches toMap; if none is found,
fall back to the destination map's declared default entry position (spec
section 4.4, transfer-token). -/
def resolveEntryPosition (terrain : Terrain) (fromMap fromPosition toMap : String) :
    Option String :=
  match findMap terrain fromMap with
  | none => (findMap terrain toMap).bind TerrainMap.defaultEntry
  | some src =>
      match src.connections.find? (fun c => c.exitPosition == fromPosition && c.toMap == toMap) with
      | some c => some c.entryPosition
      | none => (findMap terrain toMap).bind TerrainMap.defaultEntry

/-- Modelled from the spec: `transfer-token(character, toMap, position?)`;
with the position omitted the landing position is resolved from the
connections table, falling back to the destination's default entry, else
failing with NoConnection (spec section 4.4). -/
def transferToken (terrain : Terrain) (character toMap : String) (position? : Option String)
    (s : GameState) : Except RpgError GameState :=
  match s.tokens.find? (fun t => t.characterName == character) with
  | none => .error (.validationError "no token for character")
  | some tok =>
      match (match position? with
             | some p => some p
             | none => resolveEntryPosition terrain tok.map tok.position toMap) with
      | none => .error .noConnection
      | some landing =>
          .ok { s with tokens := s.tokens.map (fun t =>
              if t.characterName = character then { t with map := toMap, position := landing }
              else t) }

/-! ## Command surface and reachable states -/

/-- Modelled from the spec: the command surface of the engine that touches
the session record (spec section 6). -/
inductive Cmd where
  | join (viewer character : String)
  | logAction (viewer character text : String) (now : Nat)
  | nextTurn (now : Nat)
  | autoAdvance (now : Nat)
  | startInitiative (characters : List String) (timeoutSeconds now : Nat)
  | endCombat
  | setMode (m : Mode)
  | switchScene (map name : String)
  | moveToken (character mapId position color : String) (hidden : Bool)
  | transferToken (character toMap : String) (position? : Option String)
deriving DecidableEq

/-- Modelled from the spec: dispatch one command against the session
record; every command either completes atomically or fails atomically with
no partial effects (spec section 5). -/
def stepCmd (terrain : Terrain) (c : Cmd) (s : GameState) : GameState :=
  match c with
  | .join v ch => join v ch s
  | .logAction v ch text now => runLogAction v ch text now s
  | .nextTurn now => nextTurn now s
  | .autoAdvance now => (autoAdvance now s).2
  | .startInitiative chs t now => startInitiative chs t now s
  | .endCombat => endCombat s
  | .setMode m => setMode m s
  | .switchScene m n => switchScene m n s
  | .moveToken ch m p col h =>
      match moveToken terrain ch m p col h s with
      | .ok s2 => s2
      | .error _ => s
  | .transferToken ch m p? =>
      match transferToken terrain ch m p? s with
      | .ok s2 => s2
      | .error _ => s

/-- Modelled from the spec: the session record as created by `init` (spec
section 3, Session lifecycle), with the default 120-second turn timeout. -/
def initState : GameState :=
  { mode := .rp, activeMap := none, sceneName := none, participants := [],
    initiative := [], currentIndex := 0, deadline := none, turnTimeout := 120,
    tokens := [], actionLog := [] }

/-- A session state reachable from `init` through the command surface. -/
inductive Reachable (terrain : Terrain) : GameState → Prop where
  | init : Reachable terrain initState
  | step (c : Cmd) (s : GameState) : Reachable terrain s → Reachable terrain (stepCmd terrain c s)

/-! ## State store persistence protocol -/

/-- Modelled from the spec: the on-disk view of one persisted session
record: the target file and the temporary file (spec section 4.1); the
State Store module itself is not in the source tree, but the
temp-file-then-rename protocol mirrors updateDotEnvFile in
src/unnamed/part_001. -/
structure DiskState where
  target : Option String
  tmp : Option String
deriving DecidableEq

/-- One low-level storage action: creating (truncating) the temporary
file, appending a chunk to it, or atomically renaming it over the
target. -/
inductive WriteStep where
  | createTmp
  | writeTmpChunk (chunk : String)
  | renameTmpOverTarget
deriving DecidableEq

/-- Apply one storage action to the disk. The rename is a single atomic
step: the target changes from the old record to the new one in one
transition. -/
def applyWriteStep (d : DiskState) (st : WriteStep) : DiskState :=
  match st with
  | .createTmp => { d with tmp := some "" }
  | .writeTmpChunk c => { d with tmp := some ((d.tmp.getD "") ++ c) }
  | .renameTmpOverTarget => { target := d.tmp, tmp := none }

/-- Apply a sequence of storage actions, in order. -/
def applyWriteSteps (d : DiskState) (steps : List WriteStep) : DiskState :=
  steps.foldl applyWriteStep d

/-- Modelled from the spec: persisting a record creates the temporary
file, writes the full record to it (possibly in several chunks) and then
renames it over the target (spec section 4.1). -/
def persistSteps (chunks : List String) : List WriteStep :=
  WriteStep.createTmp :: (chunks.map WriteStep.writeTmpChunk ++ [WriteStep.renameTmpOverTarget])

/-- Modelled from the spec: the state store holding the in-memory record
and the disk (spec section 4.1). -/
structure Store where
  mem : String
  disk : DiskState
deriving DecidableEq

/-- Modelled from the spec: `mutate(fn)` applies fn to an in-memory copy
and persists the result only if fn succeeds (spec section 4.1). -/
def mutate (fn : String → Except String String) (st : Store) : Except String Store :=
  match fn st.mem with
  | .error e => .error e
  | .ok r => .ok { mem := r, disk := applyWriteSteps st.disk (persistSteps [r]) }

/-- Run a mutation, keeping the previous store when the mutation function
fails. -/
def runMutate (fn : String → Except String String) (st : Store) : Store :=
  match mutate fn st with
  | .ok st2 => st2
  | .error _ => st

/-! ## Character-level string helpers (the semantics of the JavaScript
string operations used by the sources) -/

/-- Split a character list on a separator character; mirrors
String.prototype.split for a one-character separator. -/
def splitOnChar (sep : Char) : List Char → List (List Char)
  | [] => [[]]
  | c :: rest =>
      match splitOnChar sep rest with
      | [] => [[c]]
      | g :: gs => if c = sep then [] :: g :: gs else (c :: g) :: gs

/-- Remove leading and trailing whitespace from a character list; mirrors
String.prototype.trim. -/
def trimChars (cs : List Char) : List Char :=
  ((cs.dropWhile Char.isWhitespace).reverse.dropWhile Char.isWhitespace).reverse

/-! ## The .env read/update/write utility (src/unnamed/part_001) -/

/-- Split file content into lines, as content.split("\n") does. -/
def splitLines (content : String) : List String :=
  (splitOnChar '\n' content.toList).map String.mk

/-- The key recognized on one .env line by parseDotEnvLines: the line is
trimmed; blank lines and comment lines are skipped; otherwise the part
before the first "=" (which must be at a positive index, so the trimmed
line neither lacks "=" nor starts with it) is trimmed and used as the
key. -/
def keyOfLine (line : String) : Option String :=
  match trimChars line.toList with
  | [] => none
  | c :: t0 =>
      if c = '#' then none
      else
        let t := c :: t0
        let pre := t.takeWhile (fun ch => ch ≠ '=')
        if pre.length = t.length then none
        else if pre = [] then none
        else some (String.mk (trimChars pre))

/-- Insert or overwrite one entry of the key index, as Map.set does:
replace the entry with this key in place, or append a new entry. -/
def setKeyIndex (idx : List (String × Nat)) (k : String) (i : Nat) : List (String × Nat) :=
  match idx with
  | [] => [(k, i)]
  | e :: es => if e.1 = k then (k, i) :: es else e :: setKeyIndex es k i

/-- Look up one entry of the key index, as Map.get does. -/
def getKeyIndex (idx : List (String × Nat)) (k : String) : Option Nat :=
  (idx.find? (fun e => e.1 == k)).map Prod.snd

/-- The key -> line-index map built by parseDotEnvLines: a later line with
the same key overwrites the earlier index. -/
def buildKeyIndex (lines : List String) : List (String × Nat) :=
  lines.enum.foldl (fun idx e =>
    match keyOfLine e.2 with
    | some k => setKeyIndex idx k e.1
    | none => idx) []

/-- Result of parseDotEnvLines: the raw lines and the key index. -/
structure ParsedDotEnv where
  lines : List String
  keyIndex : List (String × Nat)
deriving DecidableEq

/-- Parse a .env file into lines, preserving comments and blanks, with a
map of key to line index (parseDotEnvLines in src/unnamed/part_001). -/
def parseDotEnvLines (content : String) : ParsedDotEnv :=
  { lines := splitLines content, keyIndex := buildKeyIndex (splitLines content) }

/-- Whether a value needs quoting: it contains whitespace, a hash mark, a
quote character of either kind, or a backslash (the character with code 39
is the single quote). -/
def needsQuoting (value : String) : Bool :=
  value.toList.any (fun c => c.isWhitespace || c == '#' || c == '"' || c.toNat == 39 || c == '\\')

/-- Escape backslashes and double quotes in a quoted value, as the two
sequential replaces of formatEnvLine do. -/
def escapeEnvChars : List Char → List Char
  | [] => []
  | c :: cs =>
      if c = '\\' then '\\' :: '\\' :: escapeEnvChars cs
      else if c = '"' then '\\' :: '"' :: escapeEnvChars cs
      else c :: escapeEnvChars cs

/-- Escape backslashes and double quotes in a quoted value. -/
def escapeEnvValue (value : String) : String :=
  String.mk (escapeEnvChars value.toList)

/-- Format a KEY=VALUE line for .env (formatEnvLine in
src/unnamed/part_001). -/
def formatEnvLine (key value : String) : String :=
  if needsQuoting value then key ++ "=\"" ++ escapeEnvValue value ++ "\""
  else key ++ "=" ++ value

/-- One iteration of the update loop of updateDotEnvFile: replace the
existing line in place when the key is present in the index, else push a
new line at the end. -/
def dotEnvUpdateStep (keyIndex : List (String × Nat)) (ls : List String) (u : String × String) :
    List String :=
  match getKeyIndex keyIndex u.1 with
  | some i => ls.set i (formatEnvLine u.1 u.2)
  | none => ls ++ [formatEnvLine u.1 u.2]

/-- The update loop of updateDotEnvFile over all requested updates, in
order. -/
def applyDotEnvUpdates (p : ParsedDotEnv) (updates : List (String × String)) : List String :=
  updates.foldl (dotEnvUpdateStep p.keyIndex) p.lines

/-- Normalize the trailing newlines of the output to exactly one, as
output.replace with a trailing-newline pattern does. -/
def normalizeTrailingNewlines (s : String) : String :=
  String.mk ((s.toList.reverse.dropWhile (fun c => c == '\n')).reverse ++ ['\n'])

/-- The pure content transformation performed by updateDotEnvFile: parse,
apply the updates, join with newlines and normalize the trailing
newlines. -/
def updateDotEnvContent (content : String) (updates : List (String × String)) : String :=
  normalizeTrailingNewlines
    (String.intercalate "\n" (applyDotEnvUpdates (parseDotEnvLines content) updates))

/-! ## Path resolution (Node path.resolve, posix) -/

/-- Process ".." segments of an absolute path the way path normalization
does: ".." pops the previous segment (and is dropped at the root). -/
def resolveDotSegments (segs : List (List Char)) : List (List Char) :=
  segs.foldl (fun acc g => if g = ['.', '.'] then acc.dropLast else acc ++ [g]) []

/-- Join segments with a separator character. -/
def joinWithChar (sep : Char) : List (List Char) → List Char
  | [] => []
  | [g] => g
  | g :: g2 :: gs => g ++ sep :: joinWithChar sep (g2 :: gs)

/-- Normalize an absolute posix path: split on "/", drop empty and "."
segments, resolve ".." segments, and rebuild from the root. -/
def normalizeAbsPathChars (cs : List Char) : List Char :=
  '/' :: joinWithChar '/'
    (resolveDotSegments ((splitOnChar '/' cs).filter (fun g => !(g == []) && !(g == ['.']))))

/-- String prefix test, as String.prototype.startsWith. -/
def jsStartsWith (s pre : String) : Bool :=
  pre.toList.isPrefixOf s.toList

/-- Node path.resolve with a single argument against a current working
directory: an absolute path is normalized, a relative one is resolved
against the working directory first. -/
def pathResolve (cwd p : String) : String :=
  if jsStartsWith p "/" then String.mk (normalizeAbsPathChars p.toList)
  else String.mk (normalizeAbsPathChars (cwd.toList ++ '/' :: p.toList))

/-- Node path.join of an absolute directory and a path, normalized. -/
def pathJoin (a b : String) : String :=
  String.mk (normalizeAbsPathChars (a.toList ++ '/' :: b.toList))

/-! ## Remotion render server (src/remotion/server.js) -/

/-- The renders output directory (RENDERS_DIR in src/remotion/server.js). -/
def RENDERS_DIR : String := "/renders"

/-- The composition whitelist (VALID_COMPOSITIONS in
src/remotion/server.js). -/
def VALID_COMPOSITIONS : List String :=
  ["StreamIntro", "SH-StreamIntro", "EpisodeCard", "SH-EpisodeCard",
   "EpisodeOutro", "SH-EpisodeOutro", "HoldingScreen", "SH-HoldingScreen",
   "NarratedSegment", "SH-NarratedSegment"]

/-- A process invocation as produced by renderVideo right after its
validation checks pass. -/
structure SpawnCall where
  command : String
  args : List String
  cwd : String
deriving DecidableEq

/-- The validation prefix of renderVideo in src/remotion/server.js: reject
an unknown compositionId, then resolve the output path and reject one that
does not stay under the renders directory; only then is the render process
spawned. -/
def renderVideo (cwd compositionId propsJson outputPath : String) : Except String SpawnCall :=
  if ¬ compositionId ∈ VALID_COMPOSITIONS then
    .error ("Unknown compositionId: " ++ compositionId)
  else if ¬ jsStartsWith (pathResolve cwd outputPath) (RENDERS_DIR ++ "/") then
    .error ("outputPath must be under " ++ RENDERS_DIR ++ "/")
  else
    .ok { command := "npx",
          args := ["remotion", "render", "src/index.ts", compositionId,
                   pathResolve cwd outputPath, "--props=" ++ propsJson, "--log=verbose"],
          cwd := "/app" }

/-- A path lies strictly under the renders directory: its normalized form
is /renders followed by at least one further segment, with no empty and no
".." segment after /renders. -/
def strictlyUnderRenders (resolved : String) : Prop :=
  ∃ gs : List (List Char), gs ≠ [] ∧
    resolved.toList = '/' :: joinWithChar '/' ("renders".toList :: gs) ∧
    ['.', '.'] ∉ gs ∧ [] ∉ gs

/-- HTTP method of a request. -/
inductive HttpMethod where
  | get
  | post
deriving DecidableEq

/-- An HTTP response: status, content type and body. -/
structure HttpResponse where
  status : Nat
  contentType : String
  body : String
deriving DecidableEq

/-- Body sent by the /health endpoint. -/
def healthJson : String := "\x7b\"status\":\"ok\"\x7d"

/-- Body sent by the /game/state endpoint when the state file cannot be
read. -/
def noGameStateJson : String := "\x7b\"error\":\"No active game state\"\x7d"

/-- Body sent for an unmatched route. -/
def notFoundJson : String := "\x7b\"error\":\"Not found\"\x7d"

/-- Body sent by the /compositions endpoint. -/
def compositionsJson : String :=
  "\x7b\"compositions\":[\"StreamIntro\",\"SH-StreamIntro\",\"EpisodeCard\",\"SH-EpisodeCard\",\"EpisodeOutro\",\"SH-EpisodeOutro\",\"HoldingScreen\",\"SH-HoldingScreen\",\"NarratedSegment\",\"SH-NarratedSegment\"]\x7d"

/-- File extension of a path, as Node path.extname: the suffix of the last
path segment from its last dot, with a bare leading dot not counting as an
extension. -/
def extnameOf (p : String) : String :=
  let base := ((p.splitOn "/").getLast?).getD p
  let parts := base.splitOn "."
  if parts.length ≤ 1 then ""
  else if (parts.headD "").isEmpty ∧ parts.length = 2 then ""
  else "." ++ (parts.getLast?).getD ""

/-- The MIME_TYPES table of src/remotion/server.js, defaulting to
application/octet-stream. -/
def mimeTypeFor (ext : String) : String :=
  if ext = ".html" then "text/html"
  else if ext = ".css" then "text/css"
  else if ext = ".js" then "application/javascript"
  else if ext = ".json" then "application/json"
  else if ext = ".png" then "image/png"
  else if ext = ".jpg" then "image/jpeg"
  else if ext = ".svg" then "image/svg+xml"
  else if ext = ".mp3" then "audio/mpeg"
  else if ext = ".mp4" then "video/mp4"
  else "application/octet-stream"

/-- The request dispatch of handleRequest in src/remotion/server.js over a
read-only snapshot of the filesystem. The POST /render branch is abstracted
by renderResult (it spawns a render process); every other branch only reads
the filesystem and returns it unchanged. -/
def handleRequest (fs : String → Option String) (stateFile publicDir : String)
    (renderResult : HttpResponse × (String → Option String))
    (method : HttpMethod) (pathname : String) :
    HttpResponse × (String → Option String) :=
  if method = .get ∧ pathname = "/health" then
    ({ status := 200, contentType := "application/json", body := healthJson }, fs)
  else if method = .post ∧ pathname = "/render" then
    renderResult
  else if method = .get ∧ pathname = "/compositions" then
    ({ status := 200, contentType := "application/json", body := compositionsJson }, fs)
  else if method = .get ∧ pathname = "/game/state" then
    match fs stateFile with
    | some data => ({ status := 200, contentType := "application/json", body := data }, fs)
    | none => ({ status := 404, contentType := "application/json", body := noGameStateJson }, fs)
  else if method = .get then
    let safePath := pathname.replace ".." ""
    let filePath := pathJoin publicDir safePath
    if jsStartsWith filePath publicDir then
      match fs filePath with
      | some content =>
          ({ status := 200, contentType := mimeTypeFor (extnameOf filePath),
             body := content }, fs)
      | none => ({ status := 404, contentType := "application/json", body := notFoundJson }, fs)
    else ({ status := 404, contentType := "application/json", body := notFoundJson }, fs)
  else
    ({ status := 404, contentType := "application/json", body := notFoundJson }, fs)

/-- A demonstration filesystem snapshot with one game-state file. -/
def demoFs : String → Option String :=
  fun p => if p = "/state/game-state.json" then some "\x7b\"mode\":\"rp\"\x7d" else none

/-- A demonstration abstract outcome for the POST /render branch. -/
def demoRenderResult : HttpResponse × (String → Option String) :=
  ({ status := 500, contentType := "application/json", body := notFoundJson }, demoFs)

/-- The per-participant invariant of the idle tracker: the activity status
is the deterministic image of the skip count, and a skip count of 3 or more
implies bot control. -/
def ParticipantInv (p : Participant) : Prop :=
  p.activityStatus = statusOfSkip p.skipCount ∧ (3 ≤ p.skipCount → p.controller = botController)

/-! ## Concrete demonstration data for the scenarios -/

/-- Demonstration terrain: the cantina map with a declared connection from
its entrance to the streets map's cantina-door, matching the spec
scenario. -/
def demoTerrain : Terrain :=
  [{ mapId := "cantina.svg", positions := ["entrance", "bar-stool-l3"],
     defaultEntry := none,
     connections := [{ exitPosition := "entrance", toMap := "streets.svg",
                       entryPosition := "cantina-door" }] },
   { mapId := "streets.svg", positions := ["cantina-door", "checkpoint"],
     defaultEntry := some "cantina-door", connections := [] }]

/-- Demonstration combat state: initiative Kira then Stormtrooper with a
120 second timeout started at time 0, Kira controlled by alice. -/
def demoCombatState : GameState :=
  startInitiative ["Kira", "Stormtrooper"] 120 0
    (join "alice" "Kira" (join "carol" "Stormtrooper" initState))

/-- Demonstration participant state with a large skip count, afk status and
bot control, used to exercise the join-always-wins property. -/
def demoAfkState : GameState :=
  { initState with participants :=
      [{ characterName := "Kira", controller := botController,
         activityStatus := .afk, skipCount := 5, lastActionAt := none }] }

/-- Demonstration token state: Kira has a token at the cantina entrance. -/
def demoTokenState : GameState :=
  { initState with tokens :=
      [{ characterName := "Kira", map := "cantina.svg", position := "entrance",
         color := "#4444ff", hidden := false }] }

/-! ## Theorems -/

/-- C7: switch-scene changes only the Session.activeMap field (and the
scene name): every Token record and all other session fields are identical
before and after the call. -/
theorem switchScene_changes_activeMap_only (s : GameState) (m n : String) :
    (switchScene m n s).activeMap = some m ∧
    (switchScene m n s).sceneName = some n ∧
    (switchScene m n s).tokens = s.tokens ∧
    (switchScene m n s).mode = s.mode ∧
    (switchScene m n s).participants = s.participants ∧
    (switchScene m n s).initiative = s.initiative ∧
    (switchScene m n s).currentIndex = s.currentIndex ∧
    (switchScene m n s).deadline = s.deadline ∧
    (switchScene m n s).turnTimeout = s.turnTimeout ∧
    (switchScene m n s).actionLog = s.actionLog :=
  ⟨rfl, rfl, rfl, rfl, rfl, rfl, rfl, rfl, rfl, rfl⟩

/-- C2: join always wins: for every prior participant state and every
viewer, join(newViewer, character) leaves that character with controller
newViewer, skipCount 0 and activityStatus active. -/
theorem join_always_wins (s : GameState) (viewer character : String) :
    ∀ p ∈ (join viewer character s).participants, p.characterName = character →
      p.controller = viewer ∧ p.skipCount = 0 ∧ p.activityStatus = .active := by
  intro p hp hname
  rw [join] at hp
  split at hp
  · rcases List.mem_map.mp hp with ⟨q, hq, rfl⟩
    by_cases hqn : q.characterName = character
    · rw [if_pos hqn]
      exact ⟨rfl, rfl, rfl⟩
    · rw [if_neg hqn] at hname
      exact absurd hname hqn
  · rcases List.mem_append.mp hp with hmem | hmem
    · rename_i hany
      exact absurd (List.any_eq_true.mpr ⟨p, hmem, by simp [hname]⟩) hany
    · rcases List.mem_singleton.mp hmem with rfl
      exact ⟨rfl, rfl, rfl⟩

/-- Witness for C2: joining as dana over an afk, bot-controlled Kira with
skip count 5 yields controller dana, skip count 0 and active status. -/
theorem join_always_wins_witness :
    ({ characterName := "Kira", controller := "dana", activityStatus := .active,
       skipCount := 0, lastActionAt := none } : Participant) ∈
      (join "dana" "Kira" demoAfkState).participants ∧
    (({ characterName := "Kira", controller := "dana", activityStatus := .active,
        skipCount := 0, lastActionAt := none } : Participant).controller = "dana" ∧
     ({ characterName := "Kira", controller := "dana", activityStatus := .active,
        skipCount := 0, lastActionAt := none } : Participant).skipCount = 0 ∧
     ({ characterName := "Kira", controller := "dana", activityStatus := .active,
        skipCount := 0, lastActionAt := none } : Participant).activityStatus = .active) :=
  ⟨by decide, join_always_wins demoAfkState "dana" "Kira" _ (by decide) (by decide)⟩

/-- C4: auto-advance before the deadline is a no-op that reports the
remaining seconds, and calling it twice before the deadline still leaves
the state identical. -/
theorem autoAdvance_noop_before_deadline (s : GameState) (now d : Nat) (current : String)
    (hmode : s.mode = .combat)
    (hcur : s.initiative.get? s.currentIndex = some current)
    (hd : s.deadline = some d)
    (hlt : now < d) :
    autoAdvance now s = (.notExpired (d - now), s) ∧
    (autoAdvance now (autoAdvance now s).2).2 = s := by
  have h1 : autoAdvance now s = (.notExpired (d - now), s) := by
    unfold autoAdvance
    rw [hmode, hcur, hd]
    simp [hlt]
  refine ⟨h1, ?_⟩
  simp [h1]

/-- Witness for C4: in the demonstration combat state (deadline 120),
auto-advance at time 30 reports 90 remaining seconds and leaves the state
unchanged, also when called twice. -/
theorem autoAdvance_noop_before_deadline_witness :
    demoCombatState.mode = .combat ∧
    autoAdvance 30 demoCombatState = (.notExpired 90, demoCombatState) ∧
    (autoAdvance 30 (autoAdvance 30 demoCombatState).2).2 = demoCombatState := by
  have h := autoAdvance_noop_before_deadline demoCombatState 30 120 "Kira"
    (by decide) (by decide) (by decide) (by decide)
  exact ⟨by decide, h.1, h.2⟩

/-- C1: in combat mode, log-action is accepted exactly when the character
is the initiative entry at the current pointer and the viewer is that
character's controller; every other call is rejected as NotYourTurn naming
the character whose turn it actually is, and leaves the state unchanged. -/
theorem logAction_combat_enforcement (s : GameState) (viewer character text : String)
    (now : Nat) (current : String)
    (hmode : s.mode = .combat)
    (hcur : s.initiative.get? s.currentIndex = some current) :
    (character = current ∧ controllerOf s character = some viewer →
        logAction viewer character text now s = .ok (recordAction character text now s)) ∧
    (¬ (character = current ∧ controllerOf s character = some viewer) →
        logAction viewer character text now s = .error (.notYourTurn current) ∧
        runLogAction viewer character text now s = s) := by
  have hbase : logAction viewer character text now s =
      if character = current ∧ controllerOf s character = some viewer then
        .ok (recordAction character text now s)
      else .error (.notYourTurn current) := by
    unfold logAction
    rw [hmode, hcur]
  constructor
  · intro h
    rw [hbase, if_pos h]
  · intro h
    refine ⟨by rw [hbase, if_neg h], ?_⟩
    unfold runLogAction
    rw [hbase, if_neg h]

/-- Witness for C1: with initiative Kira then Stormtrooper and Kira
controlled by alice, a log-action by the wrong viewer Renn for Kira is
rejected as NotYourTurn naming Kira and the state is unchanged. -/
theorem logAction_combat_enforcement_witness :
    demoCombatState.mode = .combat ∧
    logAction "Renn" "Kira" "fires" 5 demoCombatState = .error (.notYourTurn "Kira") ∧
    runLogAction "Renn" "Kira" "fires" 5 demoCombatState = demoCombatState := by
  have h := (logAction_combat_enforcement demoCombatState "Renn" "Kira" "fires" 5 "Kira"
    (by decide) (by decide)).2 (by decide)
  exact ⟨by decide, h.1, h.2⟩

/-- C6: with the position argument omitted, transfer-token resolves the
landing position from a connections-table entry whose source is the
character's current map and position and whose target map matches toMap;
with no such entry it falls back to the destination map's declared default
entry position, and with none declared it fails with NoConnection. -/
theorem transferToken_resolves_landing (terrain : Terrain) (s : GameState)
    (character toMap : String) (tok : Token) (src : TerrainMap)
    (htok : s.tokens.find? (fun t => t.characterName == character) = some tok)
    (hsrc : findMap terrain tok.map = some src) :
    (∀ conn, src.connections.find?
        (fun c => c.exitPosition == tok.position && c.toMap == toMap) = some conn →
      transferToken terrain character toMap none s =
        .ok { s with tokens := s.tokens.map (fun t =>
            if t.characterName = character then
              { t with map := toMap, position := conn.entryPosition } else t) }) ∧
    (src.connections.find?
        (fun c => c.exitPosition == tok.position && c.toMap == toMap) = none →
      (∀ dflt, (findMap terrain toMap).bind TerrainMap.defaultEntry = some dflt →
        transferToken terrain character toMap none s =
          .ok { s with tokens := s.tokens.map (fun t =>
              if t.characterName = character then
                { t with map := toMap, position := dflt } else t) }) ∧
      ((findMap terrain toMap).bind TerrainMap.defaultEntry = none →
        transferToken terrain character toMap none s = .error .noConnection)) := by
  have hres : transferToken terrain character toMap none s =
      match resolveEntryPosition terrain tok.map tok.position toMap with
      | none => .error .noConnection
      | some landing => .ok { s with tokens := s.tokens.map (fun t =>
          if t.characterName = character then
            { t with map := toMap, position := landing } else t) } := by
    unfold transferToken
    rw [htok]
  have hre : resolveEntryPosition terrain tok.map tok.position toMap =
      match src.connections.find?
          (fun c => c.exitPosition == tok.position && c.toMap == toMap) with
      | some c => some c.entryPosition
      | none => (findMap terrain toMap).bind TerrainMap.defaultEntry := by
    unfold resolveEntryPosition
    rw [hsrc]
  refine ⟨?_, ?_⟩
  · intro conn hconn
    rw [hres, hre, hconn]
  · intro hnone
    refine ⟨?_, ?_⟩
    · intro dflt hd
      rw [hres, hre, hnone, hd]
    · intro hd
      rw [hres, hre, hnone, hd]

/-- Witness for C6: with the declared connection from the cantina entrance
to the streets cantina-door, transferring Kira from the cantina entrance to
streets.svg with no explicit position lands her at cantina-door. -/
theorem transferToken_resolves_landing_witness :
    transferToken demoTerrain "Kira" "streets.svg" none demoTokenState =
      .ok { demoTokenState with tokens :=
        [{ characterName := "Kira", map := "streets.svg", position := "cantina-door",
           color := "#4444ff", hidden := false }] } := by
  have h := (transferToken_resolves_landing demoTerrain demoTokenState "Kira" "streets.svg"
      { characterName := "Kira", map := "cantina.svg", position := "entrance",
        color := "#4444ff", hidden := false }
      { mapId := "cantina.svg", positions := ["entrance", "bar-stool-l3"],
        defaultEntry := none,
        connections := [{ exitPosition := "entrance", toMap := "streets.svg",
                          entryPosition := "cantina-door" }] }
      (by decide) (by decide)).1
      { exitPosition := "entrance", toMap := "streets.svg", entryPosition := "cantina-door" }
      (by decide)
  rw [h]
  rfl

/-- Writing to the temporary file leaves the target untouched and
accumulates the written chunks in the temporary file. -/
theorem applyWriteSteps_chunks (chunks : List String) : ∀ d : DiskState,
    (applyWriteSteps d (chunks.map WriteStep.writeTmpChunk)).target = d.target ∧
    (applyWriteSteps d (chunks.map WriteStep.writeTmpChunk)).tmp =
      (if chunks.isEmpty then d.tmp
       else some ((d.tmp.getD "") ++ String.join chunks)) := by
  induction chunks with
  | nil => intro d; exact ⟨rfl, rfl⟩
  | cons c cs ih =>
      intro d
      have step : applyWriteSteps d ((c :: cs).map WriteStep.writeTmpChunk) =
          applyWriteSteps { d with tmp := some ((d.tmp.getD "") ++ c) }
            (cs.map WriteStep.writeTmpChunk) := rfl
      rw [step]
      rcases ih { d with tmp := some ((d.tmp.getD "") ++ c) } with ⟨ht, htmp⟩
      refine ⟨ht, ?_⟩
      rw [htmp]
      cases cs with
      | nil => simp [String.join, String.append_empty]
      | cons c2 cs2 =>
          simp only [List.isEmpty_cons, if_neg, Option.getD_some]
          have hjoin : ∀ (l : List String) (a b : String),
              l.foldl (· ++ ·) (a ++ b) = a ++ l.foldl (· ++ ·) b := by
            intro l
            induction l with
            | nil => intro a b; rfl
            | cons x xs ihx =>
                intro a b
                show xs.foldl (· ++ ·) ((a ++ b) ++ x) = a ++ xs.foldl (· ++ ·) (b ++ x)
                rw [String.append_assoc]
                exact ihx a (b ++ x)
          show some ((d.tmp.getD "" ++ c) ++ String.join (c2 :: cs2)) =
               some (d.tmp.getD "" ++ String.join (c :: c2 :: cs2))
          have h1 : String.join (c :: c2 :: cs2) = c ++ String.join (c2 :: cs2) := by
            show (c2 :: cs2).foldl (· ++ ·) ("" ++ c) = c ++ String.join (c2 :: cs2)
            rw [String.empty_append]
            have := hjoin (c2 :: cs2) c ""
            rw [String.append_empty] at this
            exact this
          rw [h1, String.append_assoc]

/-- C5: session-state persistence writes the full record to a temporary
file and then atomically renames it over the target: the mutation result is
persisted only if the mutation function succeeds, a reader of the target
never observes a partially written record, and a crash at any point before
the rename leaves the last successfully persisted record intact. -/
theorem statePersistence_atomic (oldRec : String) (chunks : List String) (k : Nat)
    (fn : String → Except String String) (st : Store) :
    (k < (persistSteps chunks).length →
      (applyWriteSteps { target := some oldRec, tmp := none }
        ((persistSteps chunks).take k)).target = some oldRec) ∧
    ((applyWriteSteps { target := some oldRec, tmp := none }
        (persistSteps chunks)).target = some (String.join chunks)) ∧
    (∀ e, fn st.mem = .error e → runMutate fn st = st) ∧
    (∀ r, fn st.mem = .ok r →
      (runMutate fn st).disk.target = some r ∧ (runMutate fn st).mem = r) := by
  refine ⟨?_, ?_, ?_, ?_⟩
  · intro hk
    have hlen : (persistSteps chunks).length = chunks.length + 2 := by
      simp [persistSteps]
    cases k with
    | zero => rfl
    | succ j =>
        have hj : j ≤ chunks.length := by omega
        have htake : (persistSteps chunks).take (j + 1) =
            WriteStep.createTmp :: (chunks.take j).map WriteStep.writeTmpChunk := by
          unfold persistSteps
          simp only [List.take_succ_cons]
          rw [List.take_append_of_le_length (by simpa using hj)]
          rw [List.map_take]
        rw [htake]
        show (applyWriteSteps { target := some oldRec, tmp := some "" }
            ((chunks.take j).map WriteStep.writeTmpChunk)).target = some oldRec
        exact (applyWriteSteps_chunks (chunks.take j) _).1
  · have hsplit : applyWriteSteps { target := some oldRec, tmp := none } (persistSteps chunks) =
        applyWriteStep (applyWriteSteps { target := some oldRec, tmp := some "" }
          (chunks.map WriteStep.writeTmpChunk)) WriteStep.renameTmpOverTarget := by
      show applyWriteSteps { target := some oldRec, tmp := some "" }
          (chunks.map WriteStep.writeTmpChunk ++ [WriteStep.renameTmpOverTarget]) = _
      unfold applyWriteSteps
      rw [List.foldl_append]
      rfl
    rw [hsplit]
    rcases applyWriteSteps_chunks chunks { target := some oldRec, tmp := some "" } with ⟨_, htmp⟩
    show (applyWriteSteps { target := some oldRec, tmp := some "" }
        (chunks.map WriteStep.writeTmpChunk)).tmp = some (String.join chunks)
    rw [htmp]
    cases chunks with
    | nil => rfl
    | cons c cs => simp [String.empty_append]
  · intro e he
    unfold runMutate mutate
    rw [he]
  · intro r hr
    unfold runMutate mutate
    rw [hr]
    exact ⟨rfl, rfl⟩

/-- Witness for C5: persisting the record new over the record old in two
chunks keeps the target at old until just before the rename, yields new
after, and a failing mutation leaves the store unchanged while a succeeding
one persists its result. -/
theorem statePersistence_atomic_witness :
    (applyWriteSteps { target := some "old", tmp := none }
      ((persistSteps ["ne", "w"]).take 3)).target = some "old" ∧
    (applyWriteSteps { target := some "old", tmp := none }
      (persistSteps ["ne", "w"])).target = some (String.join ["ne", "w"]) ∧
    runMutate (fun _ => .error "boom")
      { mem := "old", disk := { target := some "old", tmp := none } } =
      { mem := "old", disk := { target := some "old", tmp := none } } ∧
    (runMutate (fun _ => .ok "new")
      { mem := "old", disk := { target := some "old", tmp := none } }).disk.target = some "new" := by
  have h := statePersistence_atomic "old" ["ne", "w"] 3 (fun _ => .ok "new")
    { mem := "old", disk := { target := some "old", tmp := none } }
  have h2 := statePersistence_atomic "old" ["ne", "w"] 3 (fun _ => .error "boom")
    { mem := "old", disk := { target := some "old", tmp := none } }
  exact ⟨h.1 (by decide), h.2.1, h2.2.2.1 "boom" rfl, (h.2.2.2 "new" rfl).1⟩

/-- The skip-count image is afk exactly for counts of 3 or more. -/
theorem statusOfSkip_eq_afk_iff (n : Nat) : statusOfSkip n = .afk ↔ 3 ≤ n := by
  unfold statusOfSkip
  split_ifs with h1 h2
  · exact iff_of_false (by simp) (by omega)
  · exact iff_of_false (by simp) (by omega)
  · exact iff_of_true rfl (by omega)

/-- An accepted log-action always produces the recordAction update. -/
theorem logAction_ok_eq (viewer character text : String) (now : Nat) (s s2 : GameState)
    (h : logAction viewer character text now s = .ok s2) :
    s2 = recordAction character text now s := by
  unfold logAction at h
  split at h
  · split at h
    · injection h with h2; exact h2.symm
    · simp at h
  · split at h
    · simp at h
    · split at h
      · injection h with h2; exact h2.symm
      · simp at h
  · split at h
    · injection h with h2; exact h2.symm
    · simp at h

/-- move-token never touches the participant rows. -/
theorem moveToken_participants (terrain : Terrain) (ch m pos col : String) (hid : Bool)
    (s s2 : GameState) (h : moveToken terrain ch m pos col hid s = .ok s2) :
    s2.participants = s.participants := by
  unfold moveToken at h
  split at h
  · simp at h
  · split at h
    · injection h with h2
      rw [← h2]
      unfold setToken
      split
      · rfl
      · rfl
    · simp at h

/-- transfer-token never touches the participant rows. -/
theorem transferToken_participants (terrain : Terrain) (ch m : String) (p? : Option String)
    (s s2 : GameState) (h : transferToken terrain ch m p? s = .ok s2) :
    s2.participants = s.participants := by
  unfold transferToken at h
  split at h
  · simp at h
  · split at h
    · simp at h
    · injection h with h2
      rw [← h2]

/-- join preserves the per-participant invariant. -/
theorem join_preserves_inv (viewer character : String) (s : GameState)
    (h : ∀ p ∈ s.participants, ParticipantInv p) :
    ∀ p ∈ (join viewer character s).participants, ParticipantInv p := by
  intro p hp
  rw [join] at hp
  split at hp
  · rcases List.mem_map.mp hp with ⟨q, hq, rfl⟩
    by_cases hqn : q.characterName = character
    · rw [if_pos hqn]
      exact ⟨rfl, fun h3 => by simp at h3⟩
    · rw [if_neg hqn]
      exact h q hq
  · rcases List.mem_append.mp hp with hmem | hmem
    · exact h p hmem
    · rcases List.mem_singleton.mp hmem with rfl
      exact ⟨rfl, fun h3 => by simp at h3⟩

/-- recordAction preserves the per-participant invariant. -/
theorem recordAction_preserves_inv (character text : String) (now : Nat) (s : GameState)
    (h : ∀ p ∈ s.participants, ParticipantInv p) :
    ∀ p ∈ (recordAction character text now s).participants, ParticipantInv p := by
  intro p hp
  rcases List.mem_map.mp hp with ⟨q, hq, rfl⟩
  by_cases hqn : q.characterName = character
  · rw [if_pos hqn]
    exact ⟨rfl, fun h3 => by simp at h3⟩
  · rw [if_neg hqn]
    exact h q hq

/-- bumpSkip preserves the per-participant invariant: the new status is the
image of the new count, and reaching a count of 3 hands control to the
bot. -/
theorem bumpSkip_preserves_inv (character : String) (s : GameState)
    (h : ∀ p ∈ s.participants, ParticipantInv p) :
    ∀ p ∈ (bumpSkip character s).participants, ParticipantInv p := by
  intro p hp
  rcases List.mem_map.mp hp with ⟨q, hq, rfl⟩
  by_cases hqn : q.characterName = character
  · rw [if_pos hqn]
    refine ⟨rfl, ?_⟩
    intro h3
    show (if 3 ≤ q.skipCount + 1 then botController else q.controller) = botController
    rw [if_pos h3]
  · rw [if_neg hqn]
    exact h q hq

/-- auto-advance preserves the per-participant invariant. -/
theorem autoAdvance_preserves_inv (now : Nat) (s : GameState)
    (h : ∀ p ∈ s.participants, ParticipantInv p) :
    ∀ p ∈ (autoAdvance now s).2.participants, ParticipantInv p := by
  intro p hp
  unfold autoAdvance at hp
  split at hp
  · split at hp
    · exact h p hp
    · exact bumpSkip_preserves_inv _ s h p hp
  · exact h p hp

/-- Every command preserves the per-participant invariant. -/
theorem stepCmd_preserves_inv (terrain : Terrain) (c : Cmd) (s : GameState)
    (h : ∀ p ∈ s.participants, ParticipantInv p) :
    ∀ p ∈ (stepCmd terrain c s).participants, ParticipantInv p := by
  cases c with
  | join v ch => exact join_preserves_inv v ch s h
  | logAction v ch text now =>
      intro p hp
      replace hp : p ∈ (runLogAction v ch text now s).participants := hp
      unfold runLogAction at hp
      rcases hok : logAction v ch text now s with e | s2
      · rw [hok] at hp
        exact h p hp
      · rw [hok] at hp
        rw [logAction_ok_eq v ch text now s s2 hok] at hp
        exact recordAction_preserves_inv ch text now s h p hp
  | nextTurn now =>
      intro p hp
      replace hp : p ∈ (nextTurn now s).participants := hp
      unfold nextTurn at hp
      split at hp
      · exact h p hp
      · exact h p hp
  | autoAdvance now => exact autoAdvance_preserves_inv now s h
  | startInitiative chs t now => exact fun p hp => h p hp
  | endCombat => exact fun p hp => h p hp
  | setMode m => exact fun p hp => h p hp
  | switchScene m n => exact fun p hp => h p hp
  | moveToken ch m pos col hid =>
      intro p hp
      replace hp : p ∈ (match moveToken terrain ch m pos col hid s with
        | .ok s2 => s2 | .error _ => s).participants := hp
      rcases hmv : moveToken terrain ch m pos col hid s with e | s2
      · rw [hmv] at hp
        exact h p hp
      · rw [hmv] at hp
        replace hp : p ∈ s2.participants := hp
        rw [moveToken_participants terrain ch m pos col hid s s2 hmv] at hp
        exact h p hp
  | transferToken ch m p? =>
      intro p hp
      replace hp : p ∈ (match transferToken terrain ch m p? s with
        | .ok s2 => s2 | .error _ => s).participants := hp
      rcases hmv : transferToken terrain ch m p? s with e | s2
      · rw [hmv] at hp
        exact h p hp
      · rw [hmv] at hp
        replace hp : p ∈ s2.participants := hp
        rw [transferToken_participants terrain ch m p? s s2 hmv] at hp
        exact h p hp

/-- Every reachable session state satisfies the per-participant
invariant. -/
theorem reachable_participant_inv (terrain : Terrain) (s : GameState)
    (h : Reachable terrain s) : ∀ p ∈ s.participants, ParticipantInv p := by
  induction h with
  | init => intro p hp; exact absurd hp (by simp [initState])
  | step c s2 hs ih => exact stepCmd_preserves_inv terrain c s2 ih

/-- No command other than auto-advance ever raises a skip count above a
previously existing value: every resulting count is 0 or one already
present. -/
theorem stepCmd_skip_no_increase (terrain : Terrain) (c : Cmd) (s : GameState)
    (hc : ∀ now, c ≠ Cmd.autoAdvance now) :
    ∀ p2 ∈ (stepCmd terrain c s).participants,
      p2.skipCount = 0 ∨ ∃ p ∈ s.participants, p2.skipCount = p.skipCount := by
  cases c with
  | join v ch =>
      intro p2 hp2
      replace hp2 : p2 ∈ (join v ch s).participants := hp2
      rw [join] at hp2
      split at hp2
      · rcases List.mem_map.mp hp2 with ⟨q, hq, rfl⟩
        by_cases hqn : q.characterName = ch
        · rw [if_pos hqn]
          left
          rfl
        · rw [if_neg hqn]
          right
          exact ⟨q, hq, rfl⟩
      · rcases List.mem_append.mp hp2 with hm | hm
        · right
          exact ⟨p2, hm, rfl⟩
        · rcases List.mem_singleton.mp hm with rfl
          left
          rfl
  | logAction v ch text now =>
      intro p2 hp2
      replace hp2 : p2 ∈ (runLogAction v ch text now s).participants := hp2
      unfold runLogAction at hp2
      rcases hok : logAction v ch text now s with e | s2
      · rw [hok] at hp2
        right
        exact ⟨p2, hp2, rfl⟩
      · rw [hok] at hp2
        rw [logAction_ok_eq v ch text now s s2 hok] at hp2
        rcases List.mem_map.mp hp2 with ⟨q, hq, rfl⟩
        by_cases hqn : q.characterName = ch
        · rw [if_pos hqn]
          left
          rfl
        · rw [if_neg hqn]
          right
          exact ⟨q, hq, rfl⟩
  | nextTurn now =>
      intro p2 hp2
      replace hp2 : p2 ∈ (nextTurn now s).participants := hp2
      unfold nextTurn at hp2
      split at hp2
      · right; exact ⟨p2, hp2, rfl⟩
      · right; exact ⟨p2, hp2, rfl⟩
  | autoAdvance now => exact absurd rfl (hc now)
  | startInitiative chs t now => exact fun p2 hp2 => Or.inr ⟨p2, hp2, rfl⟩
  | endCombat => exact fun p2 hp2 => Or.inr ⟨p2, hp2, rfl⟩
  | setMode m => exact fun p2 hp2 => Or.inr ⟨p2, hp2, rfl⟩
  | switchScene m n => exact fun p2 hp2 => Or.inr ⟨p2, hp2, rfl⟩
  | moveToken ch m pos col hid =>
      intro p2 hp2
      replace hp2 : p2 ∈ (match moveToken terrain ch m pos col hid s with
        | .ok s2 => s2 | .error _ => s).participants := hp2
      rcases hmv : moveToken terrain ch m pos col hid s with e | s2
      · rw [hmv] at hp2
        right
        exact ⟨p2, hp2, rfl⟩
      · rw [hmv] at hp2
        replace hp2 : p2 ∈ s2.participants := hp2
        rw [moveToken_participants terrain ch m pos col hid s s2 hmv] at hp2
        right
        exact ⟨p2, hp2, rfl⟩
  | transferToken ch m p? =>
      intro p2 hp2
      replace hp2 : p2 ∈ (match transferToken terrain ch m p? s with
        | .ok s2 => s2 | .error _ => s).participants := hp2
      rcases hmv : transferToken terrain ch m p? s with e | s2
      · rw [hmv] at hp2
        right
        exact ⟨p2, hp2, rfl⟩
      · rw [hmv] at hp2
        replace hp2 : p2 ∈ s2.participants := hp2
        rw [transferToken_participants terrain ch m p? s s2 hmv] at hp2
        right
        exact ⟨p2, hp2, rfl⟩

/-- An accepted log-action resets the acting character's skip count to
zero. -/
theorem logAction_ok_resets_skip (viewer character text : String) (now : Nat) (s s2 : GameState)
    (h : logAction viewer character text now s = .ok s2) :
    ∀ p2 ∈ s2.participants, p2.characterName = character → p2.skipCount = 0 := by
  rw [logAction_ok_eq viewer character text now s s2 h]
  intro p2 hp2 hname
  rcases List.mem_map.mp hp2 with ⟨q, hq, rfl⟩
  by_cases hqn : q.characterName = character
  · rw [if_pos hqn]
  · rw [if_neg hqn] at hname
    exact absurd hname hqn

/-- C3: in every reachable session state the activity status is the
deterministic image of the skip count (0-1 active, 2 idle, 3 or more afk),
afk never occurs with a skip count below 3, a count of 3 or more implies
bot control, no command other than auto-advance increments a skip count,
and any accepted log-action resets the acting character's count to 0. -/
theorem skipCount_state_machine (terrain : Terrain) (s : GameState) (h : Reachable terrain s) :
    (∀ p ∈ s.participants,
        p.activityStatus = statusOfSkip p.skipCount ∧
        (p.activityStatus = .afk → 3 ≤ p.skipCount) ∧
        (3 ≤ p.skipCount → p.controller = botController)) ∧
    (∀ c : Cmd, (∀ now, c ≠ Cmd.autoAdvance now) →
        ∀ p2 ∈ (stepCmd terrain c s).participants,
          p2.skipCount = 0 ∨ ∃ p ∈ s.participants, p2.skipCount = p.skipCount) ∧
    (∀ viewer character text now s2, logAction viewer character text now s = .ok s2 →
        ∀ p2 ∈ s2.participants, p2.characterName = character → p2.skipCount = 0) := by
  refine ⟨?_, ?_, ?_⟩
  · intro p hp
    rcases reachable_participant_inv terrain s h p hp with ⟨h1, h2⟩
    refine ⟨h1, ?_, h2⟩
    intro hafk
    rw [h1] at hafk
    exact (statusOfSkip_eq_afk_iff p.skipCount).mp hafk
  · exact fun c hc => stepCmd_skip_no_increase terrain c s hc
  · exact fun v ch text now s2 hok => logAction_ok_resets_skip v ch text now s s2 hok

/-- Witness for C3: after joining Kira as bob from the initial state the
reachable state contains Kira's row, and the invariant instantiated at that
row gives active status as the image of skip count 0. -/
theorem skipCount_state_machine_witness :
    ({ characterName := "Kira", controller := "bob", activityStatus := .active,
       skipCount := 0, lastActionAt := none } : Participant) ∈
      (stepCmd demoTerrain (Cmd.join "bob" "Kira") initState).participants ∧
    ({ characterName := "Kira", controller := "bob", activityStatus := .active,
       skipCount := 0, lastActionAt := none } : Participant).activityStatus =
      statusOfSkip
        ({ characterName := "Kira", controller := "bob", activityStatus := .active,
           skipCount := 0, lastActionAt := none } : Participant).skipCount := by
  have h := (skipCount_state_machine demoTerrain
      (stepCmd demoTerrain (Cmd.join "bob" "Kira") initState)
      (Reachable.step (Cmd.join "bob" "Kira") initState Reachable.init)).1
  exact ⟨by decide, (h _ (by decide)).1⟩

/-- C9: a GET request to /game/state returns the persisted game-state
file's bytes verbatim with status 200; if the file cannot be read it
returns 404 with the no-active-game-state JSON body; in both cases the
filesystem is returned unchanged (no write). -/
theorem gameState_endpoint (fs : String → Option String) (stateFile publicDir : String)
    (renderResult : HttpResponse × (String → Option String)) :
    (∀ data, fs stateFile = some data →
        handleRequest fs stateFile publicDir renderResult .get "/game/state" =
          ({ status := 200, contentType := "application/json", body := data }, fs)) ∧
    (fs stateFile = none →
        handleRequest fs stateFile publicDir renderResult .get "/game/state" =
          ({ status := 404, contentType := "application/json", body := noGameStateJson }, fs)) := by
  constructor
  · intro data hd
    unfold handleRequest
    rw [if_neg (by decide), if_neg (by decide), if_neg (by decide), if_pos (by decide)]
    rw [hd]
  · intro hd
    unfold handleRequest
    rw [if_neg (by decide), if_neg (by decide), if_neg (by decide), if_pos (by decide)]
    rw [hd]

/-- Witness for C9: on a snapshot holding one game-state file, GET
/game/state returns the file bytes with 200 and the unchanged snapshot, and
with a missing state file it returns the 404 JSON. -/
theorem gameState_endpoint_witness :
    demoFs "/state/game-state.json" = some "\x7b\"mode\":\"rp\"\x7d" ∧
    handleRequest demoFs "/state/game-state.json" "/app/public" demoRenderResult
        .get "/game/state" =
      ({ status := 200, contentType := "application/json",
         body := "\x7b\"mode\":\"rp\"\x7d" }, demoFs) ∧
    handleRequest demoFs "/missing.json" "/app/public" demoRenderResult .get "/game/state" =
      ({ status := 404, contentType := "application/json", body := noGameStateJson }, demoFs) := by
  refine ⟨rfl, ?_, ?_⟩
  · exact (gameState_endpoint demoFs "/state/game-state.json" "/app/public"
      demoRenderResult).1 _ rfl
  · exact (gameState_endpoint demoFs "/missing.json" "/app/public" demoRenderResult).2 rfl

/-- splitOnChar never produces an empty list of segments. -/
theorem splitOnChar_ne_nil (sep : Char) (cs : List Char) : splitOnChar sep cs ≠ [] := by
  cases cs with
  | nil => simp [splitOnChar]
  | cons c rest =>
      unfold splitOnChar
      split
      · simp
      · split
        · simp
        · simp

/-- No segment produced by splitOnChar contains the separator. -/
theorem splitOnChar_no_sep (sep : Char) (cs : List Char) :
    ∀ g ∈ splitOnChar sep cs, sep ∉ g := by
  induction cs with
  | nil =>
      intro g hg
      rcases List.mem_singleton.mp hg with rfl
      simp
  | cons c rest ih =>
      intro g hg
      unfold splitOnChar at hg
      split at hg
      · rename_i hsp
        exact absurd hsp (splitOnChar_ne_nil sep rest)
      · rename_i g0 gs hsp
        split at hg
        · rcases List.mem_cons.mp hg with rfl | hg2
          · simp
          · have hg3 : g ∈ splitOnChar sep rest := by rw [hsp]; exact hg2
            exact ih g hg3
        · rename_i hc
          rcases List.mem_cons.mp hg with rfl | hg2
          · intro hmem
            rcases List.mem_cons.mp hmem with heq | hmem2
            · exact hc heq.symm
            · have hg3 : g0 ∈ splitOnChar sep rest := by
                rw [hsp]; exact List.mem_cons_self g0 gs
              exact ih g0 hg3 hmem2
          · have hg3 : g ∈ splitOnChar sep rest := by
              rw [hsp]; exact List.mem_cons_of_mem g0 hg2
            exact ih g hg3

/-- Every segment surviving dot-dot resolution is one of the input segments
and is itself not a dot-dot segment. -/
theorem resolveDotSegments_mem (segs : List (List Char)) : ∀ acc : List (List Char),
    ∀ g ∈ segs.foldl (fun a g => if g = ['.', '.'] then a.dropLast else a ++ [g]) acc,
      g ∈ acc ∨ (g ∈ segs ∧ g ≠ ['.', '.']) := by
  induction segs with
  | nil => intro acc g hg; exact Or.inl hg
  | cons x xs ih =>
      intro acc g hg
      simp only [List.foldl_cons] at hg
      by_cases hx : x = ['.', '.']
      · rw [if_pos hx] at hg
        rcases ih _ g hg with h | h
        · exact Or.inl (List.dropLast_subset _ h)
        · exact Or.inr ⟨List.mem_cons_of_mem x h.1, h.2⟩
      · rw [if_neg hx] at hg
        rcases ih _ g hg with h | h
        · rcases List.mem_append.mp h with h2 | h2
          · exact Or.inl h2
          · rcases List.mem_singleton.mp h2 with rfl
            exact Or.inr ⟨List.mem_cons_self g xs, hx⟩
        · exact Or.inr ⟨List.mem_cons_of_mem x h.1, h.2⟩

/-- A prefix of the form w followed by the separator, where neither w nor
the first segment contains the separator, pins down the first segment. -/
theorem prefix_firstSeg (w : List Char) : ∀ g t : List Char,
    ('/' : Char) ∉ w → ('/' : Char) ∉ g →
    (w ++ ['/']) <+: (g ++ '/' :: t) → w = g := by
  induction w with
  | nil =>
      intro g t _ hg hp
      cases g with
      | nil => rfl
      | cons c g0 =>
          exfalso
          simp only [List.nil_append, List.cons_append] at hp
          rcases List.cons_prefix_cons.mp hp with ⟨hc, _⟩
          exact hg (hc ▸ List.mem_cons_self c g0)
  | cons a w0 ih =>
      intro g t hw hg hp
      cases g with
      | nil =>
          exfalso
          simp only [List.cons_append, List.nil_append] at hp
          rcases List.cons_prefix_cons.mp hp with ⟨hc, _⟩
          exact hw (hc ▸ List.mem_cons_self a w0)
      | cons c g0 =>
          simp only [List.cons_append] at hp
          rcases List.cons_prefix_cons.mp hp with ⟨hc, hp2⟩
          have hw0 : ('/' : Char) ∉ w0 := fun hm => hw (List.mem_cons_of_mem a hm)
          have hg0 : ('/' : Char) ∉ g0 := fun hm => hg (List.mem_cons_of_mem c hm)
          rw [hc, ih g0 t hw0 hg0 hp2]

/-- A prefix consisting of a separator-free word followed by the separator
forces the joined segment list to start with that word and to continue. -/
theorem prefix_join_segments (segs : List (List Char)) (w : List Char)
    (hsep : ∀ g ∈ segs, ('/' : Char) ∉ g) (hw : ('/' : Char) ∉ w)
    (hp : (w ++ ['/']) <+: joinWithChar '/' segs) :
    ∃ gs2, segs = w :: gs2 ∧ gs2 ≠ [] := by
  cases segs with
  | nil =>
      exfalso
      have h0 : (w ++ ['/']) = [] := List.prefix_nil.mp hp
      simp at h0
  | cons g gs =>
      cases gs with
      | nil =>
          exfalso
          have hmem : ('/' : Char) ∈ w ++ ['/'] := by simp
          have hmem2 : ('/' : Char) ∈ g := hp.subset hmem
          exact hsep g (List.mem_cons_self g []) hmem2
      | cons g2 gs2 =>
          have hjoin : joinWithChar '/' (g :: g2 :: gs2) =
              g ++ '/' :: joinWithChar '/' (g2 :: gs2) := rfl
          rw [hjoin] at hp
          have heq := prefix_firstSeg w g _ hw (hsep g (List.mem_cons_self g (g2 :: gs2))) hp
          exact ⟨g2 :: gs2, by rw [heq], by simp⟩

/-- A normalized absolute path that starts with the renders prefix lies
strictly under the renders directory. -/
theorem normalizeAbs_startsWith_renders (cs : List Char)
    (h : jsStartsWith (String.mk (normalizeAbsPathChars cs)) "/renders/" = true) :
    strictlyUnderRenders (String.mk (normalizeAbsPathChars cs)) := by
  have hsegs : ∀ g ∈ resolveDotSegments
      ((splitOnChar '/' cs).filter (fun g => !(g == []) && !(g == ['.']))),
      ('/' : Char) ∉ g ∧ g ≠ [] ∧ g ≠ ['.', '.'] := by
    intro g hg
    rcases resolveDotSegments_mem _ [] g hg with h0 | ⟨hmem, hdd⟩
    · exact absurd h0 (List.not_mem_nil g)
    · rcases List.mem_filter.mp hmem with ⟨hsplit, hpred⟩
      refine ⟨splitOnChar_no_sep '/' cs g hsplit, ?_, hdd⟩
      intro hnil
      subst hnil
      simp at hpred
  have hpre : ("/renders/".toList).IsPrefix (String.mk (normalizeAbsPathChars cs)).toList :=
    List.isPrefixOf_iff_prefix.mp h
  have hlist : (String.mk (normalizeAbsPathChars cs)).toList = normalizeAbsPathChars cs := rfl
  rw [hlist] at hpre
  have hshape : "/renders/".toList = '/' :: ("renders".toList ++ ['/']) := by decide
  rw [hshape] at hpre
  unfold normalizeAbsPathChars at hpre
  rcases List.cons_prefix_cons.mp hpre with ⟨_, hp2⟩
  have hjoin := prefix_join_segments _ "renders".toList
    (fun g hg => (hsegs g hg).1) (by decide) hp2
  rcases hjoin with ⟨gs2, hseq, hne⟩
  refine ⟨gs2, hne, ?_, ?_, ?_⟩
  · show normalizeAbsPathChars cs = _
    unfold normalizeAbsPathChars
    rw [hseq]
  · intro hdd
    have : (['.', '.'] : List Char) ∈ "renders".toList :: gs2 := List.mem_cons_of_mem _ hdd
    rw [← hseq] at this
    exact (hsegs _ this).2.2 rfl
  · intro hnil
    have : ([] : List Char) ∈ "renders".toList :: gs2 := List.mem_cons_of_mem _ hnil
    rw [← hseq] at this
    exact (hsegs _ this).2.1 rfl

/-- C10: renderVideo rejects, before any process is spawned, a composition
not on the whitelist or a resolved output path that does not lie strictly
under the renders directory; consequently every spawned render targets a
whitelisted composition and writes only under /renders/. -/
theorem renderVideo_guard (cwd compositionId propsJson outputPath : String) :
    (∀ call, renderVideo cwd compositionId propsJson outputPath = .ok call →
        compositionId ∈ VALID_COMPOSITIONS ∧
        call.args = ["remotion", "render", "src/index.ts", compositionId,
                     pathResolve cwd outputPath, "--props=" ++ propsJson, "--log=verbose"] ∧
        strictlyUnderRenders (pathResolve cwd outputPath)) ∧
    (compositionId ∉ VALID_COMPOSITIONS →
        renderVideo cwd compositionId propsJson outputPath =
          .error ("Unknown compositionId: " ++ compositionId)) ∧
    (jsStartsWith (pathResolve cwd outputPath) (RENDERS_DIR ++ "/") = false →
        ∃ e, renderVideo cwd compositionId propsJson outputPath = .error e) := by
  refine ⟨?_, ?_, ?_⟩
  · intro call hok
    unfold renderVideo at hok
    split at hok
    · simp at hok
    · rename_i hmem
      split at hok
      · simp at hok
      · rename_i hstart
        have hmem2 : compositionId ∈ VALID_COMPOSITIONS := not_not.mp hmem
        have hstart2 : jsStartsWith (pathResolve cwd outputPath) (RENDERS_DIR ++ "/") = true :=
          not_not.mp hstart
        injection hok with h2
        refine ⟨hmem2, by rw [← h2], ?_⟩
        have hstart3 : jsStartsWith (pathResolve cwd outputPath) "/renders/" = true := hstart2
        unfold pathResolve at hstart3 ⊢
        by_cases hq : jsStartsWith outputPath "/" = true
        · rw [if_pos hq] at hstart3 ⊢
          exact normalizeAbs_startsWith_renders _ hstart3
        · rw [if_neg hq] at hstart3 ⊢
          exact normalizeAbs_startsWith_renders _ hstart3
  · intro h
    unfold renderVideo
    rw [if_pos h]
  · intro h
    unfold renderVideo
    by_cases hmem : compositionId ∈ VALID_COMPOSITIONS
    · rw [if_neg (not_not.mpr hmem)]
      rw [if_pos (by simp [h])]
      exact ⟨_, rfl⟩
    · rw [if_pos hmem]
      exact ⟨_, rfl⟩

/-- Witness for C10: a whitelisted composition with an output under
/renders/ spawns with the resolved path strictly under the renders
directory; an unknown composition and a dot-dot escape are both rejected
before any spawn. -/
theorem renderVideo_guard_witness :
    "StreamIntro" ∈ VALID_COMPOSITIONS ∧
    (renderVideo "/app" "StreamIntro" "\x7b\x7d" "/renders/out/video.mp4" =
      .ok { command := "npx",
            args := ["remotion", "render", "src/index.ts", "StreamIntro",
                     pathResolve "/app" "/renders/out/video.mp4",
                     "--props=" ++ "\x7b\x7d", "--log=verbose"],
            cwd := "/app" }) ∧
    strictlyUnderRenders (pathResolve "/app" "/renders/out/video.mp4") ∧
    renderVideo "/app" "BadComp" "\x7b\x7d" "/renders/out/video.mp4" =
      .error ("Unknown compositionId: " ++ "BadComp") ∧
    (∃ e, renderVideo "/app" "StreamIntro" "\x7b\x7d" "/renders/../etc/passwd" = .error e) := by
  have hok : renderVideo "/app" "StreamIntro" "\x7b\x7d" "/renders/out/video.mp4" =
      .ok { command := "npx",
            args := ["remotion", "render", "src/index.ts", "StreamIntro",
                     pathResolve "/app" "/renders/out/video.mp4",
                     "--props=" ++ "\x7b\x7d", "--log=verbose"],
            cwd := "/app" } := rfl
  have h := (renderVideo_guard "/app" "StreamIntro" "\x7b\x7d" "/renders/out/video.mp4").1
    _ hok
  have h2 := (renderVideo_guard "/app" "BadComp" "\x7b\x7d" "/renders/out/video.mp4").2.1
    (by decide)
  have h3 := (renderVideo_guard "/app" "StreamIntro" "\x7b\x7d" "/renders/../etc/passwd").2.2
    (by rfl)
  exact ⟨h.1, hok, h.2.2, h2, h3⟩

/-- Setting a key in the index makes lookup of that key return the new
index. -/
theorem getKeyIndex_set_self (idx : List (String × Nat)) (k0 : String) (i0 : Nat) :
    getKeyIndex (setKeyIndex idx k0 i0) k0 = some i0 := by
  induction idx with
  | nil => simp [setKeyIndex, getKeyIndex, List.find?]
  | cons e es ih =>
      unfold setKeyIndex
      by_cases he : e.1 = k0
      · rw [if_pos he]
        simp [getKeyIndex, List.find?]
      · rw [if_neg he]
        unfold getKeyIndex at ih ⊢
        rw [List.find?_cons_of_neg]
        · exact ih
        · simp [he]

/-- Setting a key in the index leaves lookups of other keys unchanged. -/
theorem getKeyIndex_set_ne (idx : List (String × Nat)) (k0 : String) (i0 : Nat) (k : String)
    (hk : k ≠ k0) : getKeyIndex (setKeyIndex idx k0 i0) k = getKeyIndex idx k := by
  induction idx with
  | nil =>
      show getKeyIndex [(k0, i0)] k = getKeyIndex [] k
      unfold getKeyIndex
      rw [List.find?_cons_of_neg]
      exact fun hcon => hk ((by simpa using hcon : k0 = k)).symm
  | cons e es ih =>
      unfold setKeyIndex
      by_cases he : e.1 = k0
      · rw [if_pos he]
        unfold getKeyIndex
        rw [List.find?_cons_of_neg, List.find?_cons_of_neg]
        · exact fun hcon => hk (((by simpa using hcon : e.1 = k)).symm.trans he)
        · exact fun hcon => hk ((by simpa using hcon : k0 = k)).symm
      · rw [if_neg he]
        unfold getKeyIndex at ih ⊢
        by_cases hek : e.1 = k
        · rw [List.find?_cons_of_pos, List.find?_cons_of_pos]
          · simp [hek]
          · simp [hek]
        · rw [List.find?_cons_of_neg, List.find?_cons_of_neg]
          · exact ih
          · simp [hek]
          · simp [hek]

/-- Every index entry reachable by lookup after the parse fold points at a
line of the file whose recognized key is that entry's key. -/
theorem buildKeyIndex_sound (lines : List String) :
    ∀ k i, getKeyIndex (buildKeyIndex lines) k = some i →
      ∃ line, lines[i]? = some line ∧ keyOfLine line = some k := by
  suffices h : ∀ es : List (Nat × String), ∀ idx : List (String × Nat),
      (∀ e ∈ es, lines[e.1]? = some e.2) →
      (∀ k i, getKeyIndex idx k = some i →
        ∃ line, lines[i]? = some line ∧ keyOfLine line = some k) →
      ∀ k i, getKeyIndex (es.foldl (fun idx e =>
          match keyOfLine e.2 with
          | some k => setKeyIndex idx k e.1
          | none => idx) idx) k = some i →
        ∃ line, lines[i]? = some line ∧ keyOfLine line = some k by
    intro k i hk
    refine h lines.enum [] ?_ ?_ k i hk
    · intro e he
      rw [← List.mem_enum_iff_getElem?]
      exact he
    · intro k2 i2 hk2
      simp [getKeyIndex, List.find?] at hk2
  intro es
  induction es with
  | nil => intro idx _ hidx k i hk; exact hidx k i hk
  | cons e es2 ih =>
      intro idx hes hidx k i hk
      simp only [List.foldl_cons] at hk
      rcases hkl : keyOfLine e.2 with _ | k0
      · rw [hkl] at hk
        exact ih idx (fun e2 he2 => hes e2 (List.mem_cons_of_mem e he2)) hidx k i hk
      · rw [hkl] at hk
        refine ih _ (fun e2 he2 => hes e2 (List.mem_cons_of_mem e he2)) ?_ k i hk
        intro k2 i2 hk2
        by_cases hkk : k2 = k0
        · subst hkk
          rw [getKeyIndex_set_self] at hk2
          injection hk2 with hi
          subst hi
          exact ⟨e.2, hes e (List.mem_cons_self e es2), hkl⟩
        · rw [getKeyIndex_set_ne idx k0 e.1 k2 hkk] at hk2
          exact hidx k2 i2 hk2

/-- A looked-up line index is always in range. -/
theorem buildKeyIndex_lt (lines : List String) (k : String) (i : Nat)
    (h : getKeyIndex (buildKeyIndex lines) k = some i) : i < lines.length := by
  rcases buildKeyIndex_sound lines k i h with ⟨line, hline, _⟩
  exact (List.getElem?_eq_some.mp hline).1

/-- Two keys looked up at the same line index are the same key. -/
theorem buildKeyIndex_inj (lines : List String) (k1 k2 : String) (i : Nat)
    (h1 : getKeyIndex (buildKeyIndex lines) k1 = some i)
    (h2 : getKeyIndex (buildKeyIndex lines) k2 = some i) : k1 = k2 := by
  rcases buildKeyIndex_sound lines k1 i h1 with ⟨line1, hl1, hk1⟩
  rcases buildKeyIndex_sound lines k2 i h2 with ⟨line2, hl2, hk2⟩
  rw [hl1] at hl2
  injection hl2 with hl
  rw [← hl] at hk2
  rw [hk1] at hk2
  injection hk2

/-- The update fold never shrinks the line list. -/
theorem applyUpdates_length_le (idx : List (String × Nat)) :
    ∀ (updates : List (String × String)) (acc : List String),
      acc.length ≤ (updates.foldl (dotEnvUpdateStep idx) acc).length := by
  intro updates
  induction updates with
  | nil => intro acc; exact Nat.le_refl _
  | cons u us ih =>
      intro acc
      simp only [List.foldl_cons]
      rcases hku : getKeyIndex idx u.1 with _ | j
      · have hstep : dotEnvUpdateStep idx acc u = acc ++ [formatEnvLine u.1 u.2] := by
          unfold dotEnvUpdateStep; rw [hku]
        rw [hstep]
        calc acc.length ≤ (acc ++ [formatEnvLine u.1 u.2]).length := by simp
        _ ≤ _ := ih (acc ++ [formatEnvLine u.1 u.2])
      · have hstep : dotEnvUpdateStep idx acc u = acc.set j (formatEnvLine u.1 u.2) := by
          unfold dotEnvUpdateStep; rw [hku]
        rw [hstep]
        calc acc.length = (acc.set j (formatEnvLine u.1 u.2)).length := by
              rw [List.length_set]
        _ ≤ _ := ih _

/-- The update fold leaves every line position untouched that no update key
points at. -/
theorem applyUpdates_preserve (idx : List (String × Nat)) :
    ∀ (updates : List (String × String)) (acc : List String) (i : Nat),
      i < acc.length →
      (∀ u ∈ updates, getKeyIndex idx u.1 ≠ some i) →
      (updates.foldl (dotEnvUpdateStep idx) acc)[i]? = acc[i]? := by
  intro updates
  induction updates with
  | nil => intro acc i _ _; rfl
  | cons u us ih =>
      intro acc i hi hno
      simp only [List.foldl_cons]
      rcases hku : getKeyIndex idx u.1 with _ | j
      · have hstep : dotEnvUpdateStep idx acc u = acc ++ [formatEnvLine u.1 u.2] := by
          unfold dotEnvUpdateStep; rw [hku]
        rw [hstep]
        have hi2 : i < (acc ++ [formatEnvLine u.1 u.2]).length := by
          simp
          omega
        rw [ih _ i hi2 (fun v hv => hno v (List.mem_cons_of_mem u hv))]
        rw [List.getElem?_append]
        rw [if_pos hi]
      · have hstep : dotEnvUpdateStep idx acc u = acc.set j (formatEnvLine u.1 u.2) := by
          unfold dotEnvUpdateStep; rw [hku]
        rw [hstep]
        have hji : j ≠ i := by
          intro hji
          exact hno u (List.mem_cons_self u us) (by rw [hku, hji])
        have hi2 : i < (acc.set j (formatEnvLine u.1 u.2)).length := by
          rw [List.length_set]
          exact hi
        rw [ih _ i hi2 (fun v hv => hno v (List.mem_cons_of_mem u hv))]
        exact List.getElem?_set_ne hji

/-- A position known to hold a value splits a drop into that value followed
by the rest. -/
theorem drop_eq_cons_of_getElem? (l : List String) (m : Nat) (x : String)
    (h : l[m]? = some x) : l.drop m = x :: l.drop (m + 1) := by
  rcases List.getElem?_eq_some.mp h with ⟨hm, hx⟩
  rw [List.drop_eq_getElem_cons hm, hx]

/-- The update fold appends, beyond the original lines, exactly one
formatted line per update whose key is not in the index, in update
order. -/
theorem applyUpdates_drop (idx : List (String × Nat)) (n : Nat)
    (hbound : ∀ k i, getKeyIndex idx k = some i → i < n) :
    ∀ (updates : List (String × String)) (acc : List String), n ≤ acc.length →
      (updates.foldl (dotEnvUpdateStep idx) acc).drop acc.length =
        (updates.filter (fun u => (getKeyIndex idx u.1).isNone)).map
          (fun u => formatEnvLine u.1 u.2) := by
  intro updates
  induction updates with
  | nil => intro acc _; simp [List.drop_length]
  | cons u us ih =>
      intro acc hn
      simp only [List.foldl_cons]
      rcases hku : getKeyIndex idx u.1 with _ | j
      · have hstep : dotEnvUpdateStep idx acc u = acc ++ [formatEnvLine u.1 u.2] := by
          unfold dotEnvUpdateStep; rw [hku]
        rw [hstep]
        have hfu : ((getKeyIndex idx u.1).isNone) = true := by rw [hku]; rfl
        have hfilter : (u :: us).filter (fun v => (getKeyIndex idx v.1).isNone) =
            u :: us.filter (fun v => (getKeyIndex idx v.1).isNone) :=
          List.filter_cons_of_pos hfu
        rw [hfilter, List.map_cons]
        have hlen2 : n ≤ (acc ++ [formatEnvLine u.1 u.2]).length := by
          simp
          omega
        have htail := ih (acc ++ [formatEnvLine u.1 u.2]) hlen2
        have hpos : (us.foldl (dotEnvUpdateStep idx)
            (acc ++ [formatEnvLine u.1 u.2]))[acc.length]? = some (formatEnvLine u.1 u.2) := by
          have hi2 : acc.length < (acc ++ [formatEnvLine u.1 u.2]).length := by simp
          rw [applyUpdates_preserve idx us (acc ++ [formatEnvLine u.1 u.2]) acc.length hi2 ?_]
          · rw [List.getElem?_append]
            rw [if_neg (by omega)]
            simp
          · intro v hv hcon
            have := hbound v.1 acc.length hcon
            omega
        rw [drop_eq_cons_of_getElem? _ acc.length (formatEnvLine u.1 u.2) hpos]
        have hlen3 : (acc ++ [formatEnvLine u.1 u.2]).length = acc.length + 1 := by simp
        rw [← hlen3, htail]
      · have hstep : dotEnvUpdateStep idx acc u = acc.set j (formatEnvLine u.1 u.2) := by
          unfold dotEnvUpdateStep; rw [hku]
        rw [hstep]
        have hfu : ((getKeyIndex idx u.1).isNone) = false := by rw [hku]; rfl
        have hfilter : (u :: us).filter (fun v => (getKeyIndex idx v.1).isNone) =
            us.filter (fun v => (getKeyIndex idx v.1).isNone) :=
          List.filter_cons_of_neg (by simp [hfu])
        rw [hfilter]
        have hlen2 : n ≤ (acc.set j (formatEnvLine u.1 u.2)).length := by
          rw [List.length_set]
          exact hn
        have := ih (acc.set j (formatEnvLine u.1 u.2)) hlen2
        rw [List.length_set] at this
        exact this

/-- With pairwise distinct update keys, the line at each present key's
index ends up holding that update's formatted line. -/
theorem applyUpdates_set (idx : List (String × Nat))
    (hinj : ∀ k1 k2 i, getKeyIndex idx k1 = some i → getKeyIndex idx k2 = some i → k1 = k2) :
    ∀ (updates : List (String × String)) (acc : List String),
      (updates.map Prod.fst).Nodup →
      ∀ u ∈ updates, ∀ i, getKeyIndex idx u.1 = some i → i < acc.length →
        (updates.foldl (dotEnvUpdateStep idx) acc)[i]? = some (formatEnvLine u.1 u.2) := by
  intro updates
  induction updates with
  | nil => intro acc _ u hu; exact absurd hu (List.not_mem_nil u)
  | cons w ws ih =>
      intro acc hnd u hu i hki hi
      have hnd2 : w.1 ∉ ws.map Prod.fst ∧ (ws.map Prod.fst).Nodup :=
        List.nodup_cons.mp hnd
      simp only [List.foldl_cons]
      rcases List.mem_cons.mp hu with heq | hu2
      · subst heq
        have hstep : dotEnvUpdateStep idx acc u = acc.set i (formatEnvLine u.1 u.2) := by
          unfold dotEnvUpdateStep; rw [hki]
        rw [hstep]
        have hno : ∀ v ∈ ws, getKeyIndex idx v.1 ≠ some i := by
          intro v hv hcon
          have hkeq : v.1 = u.1 := hinj v.1 u.1 i hcon hki
          refine hnd2.1 ?_
          rw [← hkeq]
          exact List.mem_map_of_mem Prod.fst hv
        have hi2 : i < (acc.set i (formatEnvLine u.1 u.2)).length := by
          rw [List.length_set]
          exact hi
        rw [applyUpdates_preserve idx ws _ i hi2 hno]
        exact List.getElem?_set_eq_of_lt _ hi
      · rcases hkw : getKeyIndex idx w.1 with _ | j
        · have hstep : dotEnvUpdateStep idx acc w = acc ++ [formatEnvLine w.1 w.2] := by
            unfold dotEnvUpdateStep; rw [hkw]
          rw [hstep]
          exact ih _ hnd2.2 u hu2 i hki (by simp; omega)
        · have hstep : dotEnvUpdateStep idx acc w = acc.set j (formatEnvLine w.1 w.2) := by
            unfold dotEnvUpdateStep; rw [hkw]
          rw [hstep]
          exact ih _ hnd2.2 u hu2 i hki (by rw [List.length_set]; exact hi)

/-- The normalized output ends in exactly one newline. -/
theorem normalizeTrailingNewlines_spec (s : String) :
    (normalizeTrailingNewlines s).toList.getLast? = some '\n' ∧
    (normalizeTrailingNewlines s).toList.dropLast.getLast? ≠ some '\n' := by
  constructor
  · show ((s.toList.reverse.dropWhile (fun c => c == '\n')).reverse ++ ['\n']).getLast? =
      some '\n'
    exact List.getLast?_concat _
  · show ((s.toList.reverse.dropWhile (fun c => c == '\n')).reverse ++
      ['\n']).dropLast.getLast? ≠ some '\n'
    rw [List.dropLast_concat]
    rw [List.getLast?_reverse]
    intro hc
    have hmatch := List.head?_dropWhile_not (fun c => c == '\n') (s.toList.reverse)
    rw [hc] at hmatch
    simp at hmatch

/-- C8: updateDotEnvFile's content transformation replaces in place only
the lines whose key appears in the updates, appends formatted lines for
keys not already present (in update order), leaves every other line
unchanged at its original position, and normalizes the trailing newlines of
the output to exactly one. -/
theorem updateDotEnv_frame (content : String) (updates : List (String × String)) :
    (∀ i, i < (splitLines content).length →
        (∀ u ∈ updates,
          getKeyIndex (buildKeyIndex (splitLines content)) u.1 ≠ some i) →
        (applyDotEnvUpdates (parseDotEnvLines content) updates)[i]? =
          (splitLines content)[i]?) ∧
    (∀ k i, getKeyIndex (buildKeyIndex (splitLines content)) k = some i →
        ∃ line, (splitLines content)[i]? = some line ∧ keyOfLine line = some k) ∧
    ((updates.map Prod.fst).Nodup →
        ∀ u ∈ updates, ∀ i,
          getKeyIndex (buildKeyIndex (splitLines content)) u.1 = some i →
          (applyDotEnvUpdates (parseDotEnvLines content) updates)[i]? =
            some (formatEnvLine u.1 u.2)) ∧
    ((applyDotEnvUpdates (parseDotEnvLines content) updates).drop
        (splitLines content).length =
      (updates.filter
        (fun u => (getKeyIndex (buildKeyIndex (splitLines content)) u.1).isNone)).map
        (fun u => formatEnvLine u.1 u.2)) ∧
    (updateDotEnvContent content updates =
      normalizeTrailingNewlines
        (String.intercalate "\n" (applyDotEnvUpdates (parseDotEnvLines content) updates))) ∧
    ((updateDotEnvContent content updates).toList.getLast? = some '\n' ∧
     (updateDotEnvContent content updates).toList.dropLast.getLast? ≠ some '\n') := by
  refine ⟨?_, ?_, ?_, ?_, rfl, normalizeTrailingNewlines_spec _⟩
  · intro i hi hno
    exact applyUpdates_preserve (buildKeyIndex (splitLines content)) updates
      (splitLines content) i hi hno
  · exact buildKeyIndex_sound (splitLines content)
  · intro hnd u hu i hki
    exact applyUpdates_set (buildKeyIndex (splitLines content))
      (buildKeyIndex_inj (splitLines content)) updates (splitLines content) hnd u hu i hki
      (buildKeyIndex_lt (splitLines content) u.1 i hki)
  · exact applyUpdates_drop (buildKeyIndex (splitLines content)) (splitLines content).length
      (fun k i h => buildKeyIndex_lt (splitLines content) k i h) updates
      (splitLines content) (Nat.le_refl _)

/-- Witness for C8: on a file with a comment, FOO and BAR, updating FOO and
adding BAZ keeps the comment line at position 0, replaces line 1 with the
formatted FOO line, appends exactly the formatted BAZ line, and the output
ends in a newline. -/
theorem updateDotEnv_frame_witness :
    (applyDotEnvUpdates (parseDotEnvLines "# c\nFOO=1\nBAR=2\n")
        [("FOO", "x"), ("BAZ", "y")])[0]? = (splitLines "# c\nFOO=1\nBAR=2\n")[0]? ∧
    (applyDotEnvUpdates (parseDotEnvLines "# c\nFOO=1\nBAR=2\n")
        [("FOO", "x"), ("BAZ", "y")])[1]? = some (formatEnvLine "FOO" "x") ∧
    (applyDotEnvUpdates (parseDotEnvLines "# c\nFOO=1\nBAR=2\n")
        [("FOO", "x"), ("BAZ", "y")]).drop 4 = [formatEnvLine "BAZ" "y"] ∧
    (updateDotEnvContent "# c\nFOO=1\nBAR=2\n"
        [("FOO", "x"), ("BAZ", "y")]).toList.getLast? = some '\n' := by
  have h := updateDotEnv_frame "# c\nFOO=1\nBAR=2\n" [("FOO", "x"), ("BAZ", "y")]
  exact ⟨h.1 0 (by decide) (by decide),
         h.2.2.1 (by decide) ("FOO", "x") (by decide) 1 (by decide),
         h.2.2.2.1,
         h.2.2.2.2.2.1⟩

end OpenClaw
